import Mathlib

/-!
Verification of the butterflies filter/import/auth layer.

Shallow embedding of the code in `butterflies/filter_utils.py`,
`butterflies/views.py`, `butterflies/models.py` and
`butterflies/auth_utils.py`.  Python strings are modelled as `List Char`;
Python's falsy checks (`not s`), `str.strip`, `str.split`, `str.rsplit`,
`str.zfill` and `int()` are modelled character by character.  Django `Q`
objects are modelled by the inductive `Q` below, with the library's
combination rule (an empty `Q` is the identity of `|` and `&`, and a
`filter` over an empty `Q` imposes no constraint, i.e. matches every
record).  A record, for a single-field filter, is the stored value of that
field: `Option Str` (`none` models SQL NULL; every lookup on NULL is false).
-/

namespace ButterfliesSpec

/-- Python strings, modelled as lists of characters. -/
abbrev Str := List Char

/-- Literal helper: a Lean string literal as a `Str`. -/
def str (s : String) : Str := s.data

/-- Python `str.strip`'s whitespace set (space, tab, newline, return,
vertical tab, form feed). -/
def pyWs (c : Char) : Bool :=
  c = ' ' || c = '\t' || c = '\n' || c = '\r' || c = Char.ofNat 11 || c = Char.ofNat 12

/-- Python `s.strip()`: drop whitespace from both ends. -/
def pyStrip (l : Str) : Str :=
  ((l.dropWhile pyWs).reverse.dropWhile pyWs).reverse

/-- Python `s.split(sep)` for a one-character separator: full split, keeping
empty pieces; never returns the empty list. -/
def splitOnChar (sep : Char) : Str → List Str
  | [] => [[]]
  | c :: rest =>
    let r := splitOnChar sep rest
    if c = sep then [] :: r
    else (c :: r.headD []) :: r.tail

/-- Python `s.rsplit(sep, 1)` for a one-character separator: split at the
last occurrence; one piece when the separator is absent, two otherwise. -/
def pyRsplit1 (sep : Char) : Str → List Str
  | [] => [[]]
  | c :: rest =>
    match pyRsplit1 sep rest with
    | [a] => if c = sep then [[], a] else [c :: a]
    | a :: t => (c :: a) :: t
    | [] => []

/-- Python `s.zfill(width)`: left-pad with zeros, keeping a leading sign in
place. -/
def pyZfill (l : Str) (width : Nat) : Str :=
  if width ≤ l.length then l
  else
    match l with
    | [] => List.replicate width '0'
    | c :: rest =>
      if c = '+' || c = '-' then c :: (List.replicate (width - l.length) '0' ++ rest)
      else List.replicate (width - l.length) '0' ++ l

/-- Run of digits possibly broken by single underscores, each followed by a
digit (the tail of Python's integer-literal grammar, after its first
digit). -/
def digRun : Str → Bool
  | [] => true
  | c :: rest =>
    if c.isDigit then digRun rest
    else if c = '_' then
      match rest with
      | d :: rest2 => d.isDigit && digRun rest2
      | [] => false
    else false

/-- Digit sequence accepted by Python's `int()` after the optional sign:
nonempty, starting with a digit, underscores only between digits. -/
def intBody : Str → Bool
  | [] => false
  | c :: rest => c.isDigit && digRun rest

/-- Numeric value of the digits of `l`, ignoring non-digits (used on
strings already validated by `intBody`, where only underscores are
skipped). -/
def digitsVal (l : Str) : Nat :=
  (l.filter Char.isDigit).foldl (fun a c => a * 10 + (c.toNat - '0'.toNat)) 0

/-- Python `int(s)`: strip whitespace, optional sign, digits with single
underscores between digits; `none` models the `ValueError`. -/
def pyInt (l : Str) : Option Int :=
  let t := pyStrip l
  match t with
  | '+' :: rest => if intBody rest then some (digitsVal rest : Int) else none
  | '-' :: rest => if intBody rest then some (-(digitsVal rest : Int)) else none
  | _ => if intBody t then some (digitsVal t : Int) else none

/-- Python `str(n)` for an integer (decimal, `-` sign for negatives). -/
def intToStr (n : Int) : Str :=
  match n with
  | .ofNat m => (Nat.repr m).data
  | .negSucc m => '-' :: (Nat.repr (m + 1)).data

/-- Python `range(a, b + 1)` over integers, as a list. -/
def pyRangeList (a b : Int) : List Int :=
  (List.range (b + 1 - a).toNat).map (fun (k : Nat) => a + (k : Int))

/-- ASCII lowercasing, the case folding of the `iexact` / `icontains`
lookups on this data. -/
def asciiLower (c : Char) : Char :=
  if 'A' ≤ c && c ≤ 'Z' then Char.ofNat (c.toNat + 32) else c

/-- Lowercase a whole string. -/
def lowerStr (l : Str) : Str := l.map asciiLower

/-- Does `hay` contain `needle` as a contiguous substring? -/
def containsSub (hay needle : Str) : Bool :=
  match hay with
  | [] => needle.isEmpty
  | _ :: rest => needle.isPrefixOf hay || containsSub rest needle

/-- Lexicographic comparison of strings by character code, the ordering the
database applies to the `__gte` / `__lte` text lookups. -/
def strLe : Str → Str → Bool
  | [], _ => true
  | _ :: _, [] => false
  | a :: as_, b :: bs => if a = b then strLe as_ bs else decide (a < b)

/-- The field lookups `parse_filter` and `apply_model_filters` build.
`regexPD p` stands for `__regex` with pattern `^p[0-9]+$` for a
metacharacter-free literal `p` (the theorems using it restrict the
characters of `p` accordingly). -/
inductive Lookup where
  | exact (v : Str)
  | iexact (v : Str)
  | icontains (v : Str)
  | gte (v : Str)
  | lte (v : Str)
  | regexPD (p : Str)
  | startswith (v : Str)
deriving DecidableEq, Repr

/-- Truth of one lookup against the stored value of the filtered field
(`none` is SQL NULL: every lookup is false on it). -/
def evalLookup : Lookup → Option Str → Bool
  | .exact v, some s => s == v
  | .iexact v, some s => lowerStr s == lowerStr v
  | .icontains v, some s => containsSub (lowerStr s) (lowerStr v)
  | .gte v, some s => strLe v s
  | .lte v, some s => strLe s v
  | .regexPD p, some s =>
      p.isPrefixOf s && !(s.drop p.length).isEmpty && (s.drop p.length).all Char.isDigit
  | .startswith v, some s => v.isPrefixOf s
  | _, none => false

/-- Django `Q` objects, as `parse_filter` builds them: the empty `Q()`, a
single lookup, and the `&` / `|` nodes. -/
inductive Q where
  | empty
  | leaf (l : Lookup)
  | conj (a b : Q)
  | disj (a b : Q)
deriving DecidableEq, Repr

/-- Django's `Q.__or__`: an empty operand is dropped (`Q() | x = x`). -/
def qOr : Q → Q → Q
  | .empty, y => y
  | x, .empty => x
  | x, y => .disj x y

/-- Django's `Q.__and__`: an empty operand is dropped (`Q() & x = x`). -/
def qAnd : Q → Q → Q
  | .empty, y => y
  | x, .empty => x
  | x, y => .conj x y

/-- Truth of a `Q` object under `queryset.filter`: the empty `Q` imposes no
constraint, so it is true of every record. -/
def evalQ : Q → Option Str → Bool
  | .empty, _ => true
  | .leaf lk, r => evalLookup lk r
  | .conj a b, r => evalQ a r && evalQ b r
  | .disj a b, r => evalQ a r || evalQ b r

/-- Loop body of `FilterBuilder.parse_filter` (filter_utils.py lines
48-104): fold one already-stripped part into the accumulated `Q`.  The
`match ... | _ =>` fallbacks are the `except (ValueError, IndexError)`
branch: a tuple unpacking of a split with a number of pieces other than two
raises, and the handler degrades to `icontains` on the raw part. -/
def part_filter_step (field_name : String) (range_support : Bool) (acc : Q) (part : Str) : Q :=
  if part.contains ':' && range_support then
    if part.contains '-' && field_name == "catalogNumber" then
      match pyRsplit1 '-' part with
      | [prefix_part, range_part] =>
        let pfx := prefix_part ++ ['-']
        match splitOnChar ':' range_part with
        | [start_num, end_num] =>
          let maxLen := max start_num.length end_num.length
          let start_padded := pyZfill start_num maxLen
          let end_padded := pyZfill end_num maxLen
          qOr acc (qAnd (qAnd (qAnd .empty (.leaf (.regexPD pfx)))
            (.leaf (.gte (pfx ++ start_padded)))) (.leaf (.lte (pfx ++ end_padded))))
        | _ => qOr acc (.leaf (.icontains part))
      | _ => qOr acc (.leaf (.icontains part))
    else
      match splitOnChar ':' part with
      | [s0, e0] =>
        let start_val := pyStrip s0
        let end_val := pyStrip e0
        if field_name == "year" || field_name == "specimenNumber" then
          match pyInt start_val, pyInt end_val with
          | some start_int, some end_int =>
            (pyRangeList start_int end_int).foldl
              (fun q v => qOr q (.leaf (.exact (intToStr v)))) acc
          | _, _ =>
            qOr acc (qAnd (qAnd .empty (.leaf (.gte start_val))) (.leaf (.lte end_val)))
        else
          qOr acc (qAnd (qAnd .empty (.leaf (.gte start_val))) (.leaf (.lte end_val)))
      | _ => qOr acc (.leaf (.icontains part))
  else
    qOr acc (.leaf (.iexact part))

/-- `FilterBuilder.parse_filter` (filter_utils.py lines 28-106): guard for
falsy value / blank value / falsy field name, split on commas, strip each
part, fold the loop body over the parts starting from the empty `Q`. -/
def parse_filter (field_name : String) (value : Str) (range_support : Bool) : Q :=
  if value.isEmpty || (pyStrip value).isEmpty || field_name == "" then .empty
  else
    ((splitOnChar ',' value).map pyStrip).foldl (part_filter_step field_name range_support) .empty

/-- The predicate one part alone contributes: the loop body applied to the
empty accumulator. -/
def part_filter (field_name : String) (range_support : Bool) (part : Str) : Q :=
  part_filter_step field_name range_support .empty part

/-- The list of disjuncts the loop body ORs into the accumulator for one
part; `part_filter_step acc part` is the fold of `qOr` over it (proved
below), so an empty list means the part contributes nothing. -/
def partContrib (field_name : String) (range_support : Bool) (part : Str) : List Q :=
  if part.contains ':' && range_support then
    if part.contains '-' && field_name == "catalogNumber" then
      match pyRsplit1 '-' part with
      | [prefix_part, range_part] =>
        let pfx := prefix_part ++ ['-']
        match splitOnChar ':' range_part with
        | [start_num, end_num] =>
          let maxLen := max start_num.length end_num.length
          let start_padded := pyZfill start_num maxLen
          let end_padded := pyZfill end_num maxLen
          [Q.conj (Q.conj (Q.leaf (.regexPD pfx)) (Q.leaf (.gte (pfx ++ start_padded))))
            (Q.leaf (.lte (pfx ++ end_padded)))]
        | _ => [Q.leaf (.icontains part)]
      | _ => [Q.leaf (.icontains part)]
    else
      match splitOnChar ':' part with
      | [s0, e0] =>
        let start_val := pyStrip s0
        let end_val := pyStrip e0
        if field_name == "year" || field_name == "specimenNumber" then
          match pyInt start_val, pyInt end_val with
          | some start_int, some end_int =>
            (pyRangeList start_int end_int).map (fun v => Q.leaf (.exact (intToStr v)))
          | _, _ => [Q.conj (Q.leaf (.gte start_val)) (Q.leaf (.lte end_val))]
        else
          [Q.conj (Q.leaf (.gte start_val)) (Q.leaf (.lte end_val))]
      | _ => [Q.leaf (.icontains part)]
  else
    [Q.leaf (.iexact part)]

/-- The condition under which the range parsing of one colon-containing
part raises in the source (a two-variable tuple unpack of a split that did
not produce exactly two pieces), reaching the `except` fallback. -/
def malformedRange (field_name : String) (part : Str) : Bool :=
  if part.contains '-' && field_name == "catalogNumber" then
    match pyRsplit1 '-' part with
    | [_, range_part] => (splitOnChar ':' range_part).length ≠ 2
    | _ => true
  else
    (splitOnChar ':' part).length ≠ 2

/-- Sort key produced by `FilterBuilder.create_annotation_for_numeric_sorting`
followed by the `Cast` to an integer field in `apply_model_filters`
(filter_utils.py lines 160-178 and 254-272): a value matching the regular
expression `^\d+$` is cast to its numeric value, anything else (including
NULL) goes through the default `Value('0')` and casts to `0`. -/
def numeric_sort_key (v : Option Str) : Nat :=
  match v with
  | some s => if !s.isEmpty && s.all Char.isDigit then digitsVal s else 0
  | none => 0

/-- The default ordering `apply_model_filters` applies through the numeric
annotation: sort the stored field values by their cast integer key
(`order_by` on the annotated column). -/
def order_by_numeric (l : List (Option Str)) : List (Option Str) :=
  l.mergeSort (fun a b => numeric_sort_key a ≤ numeric_sort_key b)

/-- A stored value that the numeric-sort regular expression `^\d+$`
accepts: a nonempty all-digit string. -/
def isDigitString : Option Str → Bool
  | some s => !s.isEmpty && s.all Char.isDigit
  | none => false

/-- Specimen numbers, stored as text, used as the concrete instance of the
sorting claim: `1,2,3,10,11,20` entered in a scrambled order. -/
def sampleSpecimenNumbers : List (Option Str) :=
  [some (str "1"), some (str "10"), some (str "11"),
    some (str "2"), some (str "20"), some (str "3")]

/-- A record as seen by the foreign-key branch of `apply_model_filters`:
only the stored foreign-key column (the related object's natural key, or
NULL) matters. -/
structure FkRec where
  fk : Option Str
deriving DecidableEq, Repr

/-- The foreign-key branch of `apply_model_filters` (filter_utils.py lines
234-249).  `relatedPks` is the related model's table of primary keys;
`exactRaises` tells whether the exact-match `filter(**{field.name: value})`
raises `ValueError`/`DoesNotExist` (the `try` failing), in which case the
code falls back to `pk__icontains` on the related model and either filters
by membership or returns `queryset.none()`. -/
def fk_filter_step (qs : List FkRec) (relatedPks : List Str) (value : Str)
    (exactRaises : Bool) : List FkRec :=
  if !exactRaises then
    qs.filter (fun rcd => rcd.fk == some value)
  else
    let related := relatedPks.filter (fun pk => containsSub (lowerStr pk) (lowerStr value))
    if related.isEmpty then []
    else qs.filter (fun rcd => match rcd.fk with
      | some k => related.contains k
      | none => false)

/-- The fields of an import row that the catalog-number component check of
`validate_specimen_data` reads (views.py lines 1475-1499); `none` models a
key absent from `row_data` (or a NaN cleaned to None). -/
structure ImportRow where
  catalogNumber : Option Str
  specimenNumber : Option Str
  year : Option Str
  locality : Option Str
deriving DecidableEq, Repr

/-- Python falsy test on an optional string: `None` and the empty string
are falsy. -/
def falsy : Option Str → Bool
  | none => true
  | some s => s.isEmpty

/-- The `missing_components` list built by `validate_specimen_data`: the
required catalog-number components, in source order, that are falsy. -/
def missing_components (row : ImportRow) : List String :=
  (if falsy row.specimenNumber then ["specimenNumber"] else []) ++
    (if falsy row.year then ["year"] else []) ++
      (if falsy row.locality then ["locality"] else [])

/-- The catalog-number component check of `validate_specimen_data` (views.py
lines 1475-1499): for a row with no catalog number and missing components,
one error message naming the missing fields, and those fields marked;
otherwise nothing.  Returns (errors appended, error fields added). -/
def validate_catalog_components (row : ImportRow) : List String × List String :=
  if falsy row.catalogNumber then
    let mc := missing_components row
    if mc.isEmpty then ([], [])
    else
      (["Missing required field(s): " ++ String.intercalate ", " mc ++
          ". These are needed to generate catalogNumber."], mc)
  else ([], [])

/-- Session error-flag update on a preview render (views.py line 2700):
`request.session['import_all_errors'] = all_errors or has_errors`. -/
def update_all_errors (prev pageHasErrors : Bool) : Bool :=
  prev || pageHasErrors

/-- Outcome of processing one row in the commit loop of `import_model`
(views.py lines 2264-2431).  `created r` means the whole per-row block ran
and `model.objects.create` succeeded for row `r`; `failed msg preSkip`
means some step raised, with `msg` the user-facing message the handler
records, and `preSkip` true exactly for the event-date failure path that
already incremented `skipped_count` before raising (lines 2301-2304). -/
inductive RowOutcome (ρ : Type) where
  | created (r : ρ)
  | failed (msg : String) (preSkip : Bool)

/-- The per-import counters and session error list of the commit loop. -/
structure ImportState (ρ : Type) where
  imported : Nat
  skipped : Nat
  errors : List String
  created : List ρ

/-- One iteration of the commit loop: a successful row increments
`imported_count` and is inserted; a failed row appends its message to the
session error list and increments `skipped_count` (twice on the event-date
path), and the loop continues. -/
def import_rows_step {ρ : Type} (st : ImportState ρ) (o : RowOutcome ρ) : ImportState ρ :=
  match o with
  | .created r =>
    { st with imported := st.imported + 1, created := st.created ++ [r] }
  | .failed m pre =>
    { st with skipped := st.skipped + (if pre then 2 else 1), errors := st.errors ++ [m] }

/-- The commit loop over all rows of the stored dataframe. -/
def import_rows {ρ : Type} (rows : List (RowOutcome ρ)) : ImportState ρ :=
  rows.foldl import_rows_step ⟨0, 0, [], []⟩

/-- Result of the confirm POST of `import_model`. -/
structure ConfirmOutcome (ρ : Type) where
  refused : Bool
  state : ImportState ρ

/-- The confirm step of `import_model` (views.py lines 2232-2253 and
2264-2431): the server re-checks `request.session['import_all_errors']`
before any row is processed; if the flag is set the import is cancelled
with an error message and a redirect, creating nothing; otherwise every row
is processed by the commit loop. -/
def confirm_import {ρ : Type} (importAllErrors : Bool) (rows : List (RowOutcome ρ)) :
    ConfirmOutcome ρ :=
  if importAllErrors then { refused := true, state := ⟨0, 0, [], []⟩ }
  else { refused := false, state := import_rows rows }

/-- Request context for the access-control layer: authentication state,
the session's guest-mode flag, and the two admin criteria. -/
structure Ctx where
  is_authenticated : Bool
  guest_mode : Bool
  is_superuser : Bool
  in_admin_group : Bool
deriving DecidableEq, Repr

/-- Outcome of a gated view: served, redirected to the login page, or the
access-denied page. -/
inductive Access where
  | allowed
  | redirect_login
  | access_denied
deriving DecidableEq, Repr

/-- `is_guest_mode` (auth_utils.py lines 9-13): the session flag. -/
def is_guest_mode (c : Ctx) : Bool := c.guest_mode

/-- The `guest_allowed` decorator (auth_utils.py lines 15-29): serve when
authenticated or in guest mode, else redirect to login. -/
def guest_allowed (c : Ctx) : Access :=
  if c.is_authenticated || is_guest_mode c then .allowed else .redirect_login

/-- Django's `login_required` decorator as used on `dynamic_create_edit`:
serve when authenticated, else redirect to login. -/
def login_required (c : Ctx) : Access :=
  if c.is_authenticated then .allowed else .redirect_login

/-- The `admin_required` decorator (auth_utils.py lines 31-61): guests are
denied; superusers and members of the Admin group are served; other
unauthenticated users are redirected to login; other authenticated users
are denied. -/
def admin_required (c : Ctx) : Access :=
  if is_guest_mode c then .access_denied
  else if c.is_superuser then .allowed
  else if c.in_admin_group then .allowed
  else if !c.is_authenticated then .redirect_login
  else .access_denied

/-- Access decision of `dynamic_list` and `dynamic_detail` (views.py lines
201-202 and 428-429): both carry `@guest_allowed`. -/
def dynamic_list_access (c : Ctx) : Access := guest_allowed c

/-- Access decision of `dynamic_delete` (views.py lines 470-471):
`@admin_required`. -/
def dynamic_delete_access (c : Ctx) : Access := admin_required c

/-- Access decision of `dynamic_create_edit` (views.py lines 512-538):
`@login_required`, then an in-view check denying edits of the reference
models `locality` and `initials` to users who are neither superusers nor in
the Admin group. -/
def dynamic_create_edit_access (c : Ctx) (model_name : String) : Access :=
  match login_required c with
  | .redirect_login => .redirect_login
  | _ =>
    if (model_name == "locality" || model_name == "initials") &&
        !(c.is_superuser || c.in_admin_group) then .access_denied
    else .allowed

/-- The fields of a specimen that `Specimen.save` reads and writes
(models.py lines 149-164).  `localityCode` is `none` when `self.locality`
is NULL, and `some code` for a related locality whose primary key is
`code`. -/
structure SpecimenRow where
  year : Option Str
  specimenNumber : Option Str
  catalogNumber : Option Str
  localityCode : Option Str
deriving DecidableEq, Repr

/-- Python `x or default` on an optional string field. -/
def pyOr (v : Option Str) (d : Str) : Str :=
  match v with
  | some s => if s.isEmpty then d else s
  | none => d

/-- Python `f'{n:04d}'` for a natural number: decimal, zero-padded to at
least four digits. -/
def format04d (n : Nat) : Str :=
  let d := (Nat.repr n).data
  if d.length < 4 then List.replicate (4 - d.length) '0' ++ d else d

/-- `Specimen.save` (models.py lines 149-164), up to the delegation to the
database.  `dbCount` is `Specimen.objects.count()` and `uuidHex` the hex
digest of `uuid.uuid4()` (both external inputs of the method): a falsy
catalog number is regenerated as `year-localityCode-specimenNumber` with
`XXXX` placeholders and an auto `SPnnnn` specimen number, and a catalog
number that is still falsy or whitespace-only is replaced by `AUTO-` plus
the first 8 hex digits. -/
def specimen_save (s : SpecimenRow) (dbCount : Nat) (uuidHex : Str) : SpecimenRow :=
  let year := pyOr s.year (str "XXXX")
  let locality_code :=
    match s.localityCode with
    | some code => if code.isEmpty then str "XXXX" else code
    | none => str "XXXX"
  let specimen_number := pyOr s.specimenNumber (str "SP" ++ format04d (dbCount + 1))
  let cat1 : Option Str :=
    if falsy s.catalogNumber then
      some (year ++ str "-" ++ locality_code ++ str "-" ++ specimen_number)
    else s.catalogNumber
  let cat2 : Option Str :=
    if falsy cat1 || (pyStrip (cat1.getD [])).isEmpty then
      some (str "AUTO-" ++ uuidHex.take 8)
    else cat1
  { s with catalogNumber := cat2 }

/-! ### Lemmas: Django `Q` combination and the disjunct decomposition of
`parse_filter` -/

theorem qOr_empty_left (x : Q) : qOr .empty x = x := by
  cases x <;> rfl

theorem qOr_ne_empty {x : Q} (hx : x ≠ .empty) (y : Q) : qOr x y ≠ .empty := by
  cases x <;> cases y <;> simp_all [qOr]

theorem evalQ_qOr {x y : Q} (hx : x ≠ .empty) (hy : y ≠ .empty) (r : Option Str) :
    evalQ (qOr x y) r = (evalQ x r || evalQ y r) := by
  cases x <;> cases y <;> simp_all [qOr, evalQ]

theorem foldl_qOr_ne {l : List Q} (hl : ∀ q ∈ l, q ≠ .empty) :
    ∀ {acc : Q}, acc ≠ .empty →
      l.foldl qOr acc ≠ .empty ∧
        ∀ r, evalQ (l.foldl qOr acc) r = (evalQ acc r || l.any (fun q => evalQ q r)) := by
  induction l with
  | nil => intro acc hacc; simp [hacc]
  | cons q t ih =>
    intro acc hacc
    have hq : q ≠ .empty := hl q (by simp)
    have ht : ∀ x ∈ t, x ≠ .empty := fun x hx => hl x (List.mem_cons_of_mem _ hx)
    obtain ⟨h1, h2⟩ := ih ht (qOr_ne_empty hacc q)
    refine ⟨h1, fun r => ?_⟩
    rw [List.foldl_cons, h2 r, evalQ_qOr hacc hq]
    simp [Bool.or_assoc]

theorem foldl_qOr_from_empty_eq_nil {l : List Q} (hl : ∀ q ∈ l, q ≠ .empty) :
    l.foldl qOr .empty = .empty ↔ l = [] := by
  cases l with
  | nil => simp
  | cons q t =>
    have hq : q ≠ .empty := hl q (by simp)
    have ht : ∀ x ∈ t, x ≠ .empty := fun x hx => hl x (List.mem_cons_of_mem _ hx)
    rw [List.foldl_cons, qOr_empty_left]
    simp [(foldl_qOr_ne ht hq).1]

theorem foldl_qOr_from_empty_eval {l : List Q} (hl : ∀ q ∈ l, q ≠ .empty) (r : Option Str) :
    evalQ (l.foldl qOr .empty) r = true ↔ (l = [] ∨ ∃ q ∈ l, evalQ q r = true) := by
  cases l with
  | nil => simp [evalQ]
  | cons q t =>
    have hq : q ≠ .empty := hl q (by simp)
    have ht : ∀ x ∈ t, x ≠ .empty := fun x hx => hl x (List.mem_cons_of_mem _ hx)
    rw [List.foldl_cons, qOr_empty_left, (foldl_qOr_ne ht hq).2 r]
    simp [List.any_eq_true]

theorem part_filter_step_eq (f : String) (rs : Bool) (acc : Q) (p : Str) :
    part_filter_step f rs acc p = (partContrib f rs p).foldl qOr acc := by
  unfold part_filter_step partContrib
  by_cases h1 : (p.contains ':' && rs) = true
  · simp only [h1, if_true]
    by_cases h2 : (p.contains '-' && (f == "catalogNumber")) = true
    · simp only [h2, if_true]
      rcases hr : pyRsplit1 '-' p with _ | ⟨a, _ | ⟨b, _ | ⟨c, t⟩⟩⟩ <;>
        simp only [List.foldl_cons, List.foldl_nil]
      rcases hs : splitOnChar ':' b with _ | ⟨u, _ | ⟨v, _ | ⟨w, t2⟩⟩⟩ <;>
        simp [qAnd, List.foldl]
    · simp only [h2, if_false, Bool.false_eq_true]
      rcases hs : splitOnChar ':' p with _ | ⟨u, _ | ⟨v, _ | ⟨w, t2⟩⟩⟩ <;>
        simp only [List.foldl_cons, List.foldl_nil]
      by_cases h3 : (f == "year" || f == "specimenNumber") = true
      · simp only [h3, if_true]
        rcases hu : pyInt (pyStrip u) with _ | su <;> rcases hv : pyInt (pyStrip v) with _ | sv <;>
          simp [qAnd, List.foldl, List.foldl_map]
      · simp only [h3, if_false, Bool.false_eq_true]
        simp [qAnd, List.foldl]
  · simp only [h1, if_false, Bool.false_eq_true]
    simp [List.foldl]

theorem partContrib_ne_empty (f : String) (rs : Bool) (p : Str) :
    ∀ q ∈ partContrib f rs p, q ≠ .empty := by
  intro q hq
  unfold partContrib at hq
  repeat' (first | split at hq | dsimp only [] at hq)
  all_goals
    first
      | (simp only [List.mem_singleton] at hq; subst hq; simp)
      | (rcases List.mem_map.mp hq with ⟨v, -, rfl⟩; simp)

theorem foldl_step_eq_flatten (f : String) (rs : Bool) :
    ∀ (parts : List Str) (acc : Q),
      parts.foldl (part_filter_step f rs) acc
        = ((parts.map (partContrib f rs)).flatten).foldl qOr acc := by
  intro parts
  induction parts with
  | nil => intro acc; rfl
  | cons p ps ih =>
    intro acc
    rw [List.foldl_cons, ih, List.map_cons, List.flatten_cons, List.foldl_append,
      part_filter_step_eq]

theorem parse_filter_eq_fold (f : String) (rs : Bool) (value : Str)
    (h1 : (pyStrip value).isEmpty = false) (h2 : (f == "") = false) :
    parse_filter f value rs
      = ((((splitOnChar ',' value).map pyStrip).map (partContrib f rs)).flatten).foldl
          qOr .empty := by
  have hv : value.isEmpty = false := by
    cases value with
    | nil => simp [pyStrip] at h1
    | cons c t => rfl
  unfold parse_filter
  rw [hv, h1, h2]
  simp only [Bool.or_self, Bool.or_false, if_false, Bool.false_eq_true]
  exact foldl_step_eq_flatten f rs _ .empty

theorem parse_filter_matches_iff (f : String) (rs : Bool) (value : Str) (r : Option Str)
    (h1 : (pyStrip value).isEmpty = false) (h2 : (f == "") = false) :
    evalQ (parse_filter f value rs) r = true ↔
      ((∀ p ∈ (splitOnChar ',' value).map pyStrip, partContrib f rs p = []) ∨
        ∃ p ∈ (splitOnChar ',' value).map pyStrip,
          ∃ q ∈ partContrib f rs p, evalQ q r = true) := by
  rw [parse_filter_eq_fold f rs value h1 h2]
  have hall :
      ∀ q ∈ (((splitOnChar ',' value).map pyStrip).map (partContrib f rs)).flatten,
        q ≠ .empty := by
    intro q hq
    rcases List.mem_flatten.mp hq with ⟨l, hl, hql⟩
    rcases List.mem_map.mp hl with ⟨p, hp, rfl⟩
    exact partContrib_ne_empty f rs p q hql
  rw [foldl_qOr_from_empty_eval hall r]
  constructor
  · rintro (h | ⟨q, hq, hqr⟩)
    · left
      intro p hp
      have := List.flatten_eq_nil_iff.mp h (partContrib f rs p)
        (List.mem_map.mpr ⟨p, hp, rfl⟩)
      exact this
    · rcases List.mem_flatten.mp hq with ⟨l, hl, hql⟩
      rcases List.mem_map.mp hl with ⟨p, hp, rfl⟩
      exact Or.inr ⟨p, hp, q, hql, hqr⟩
  · rintro (h | ⟨p, hp, q, hq, hqr⟩)
    · left
      apply List.flatten_eq_nil_iff.mpr
      intro l hl
      rcases List.mem_map.mp hl with ⟨p, hp, rfl⟩
      exact h p hp
    · exact Or.inr ⟨q, List.mem_flatten.mpr ⟨partContrib f rs p,
        List.mem_map.mpr ⟨p, hp, rfl⟩, hq⟩, hqr⟩

theorem part_filter_eval_iff (f : String) (rs : Bool) (p : Str) (r : Option Str) :
    evalQ (part_filter f rs p) r = true ↔
      (partContrib f rs p = [] ∨ ∃ q ∈ partContrib f rs p, evalQ q r = true) := by
  unfold part_filter
  rw [part_filter_step_eq]
  exact foldl_qOr_from_empty_eval (partContrib_ne_empty f rs p) r

theorem part_filter_empty_iff (f : String) (rs : Bool) (p : Str) :
    part_filter f rs p = .empty ↔ partContrib f rs p = [] := by
  unfold part_filter
  rw [part_filter_step_eq]
  exact foldl_qOr_from_empty_eq_nil (partContrib_ne_empty f rs p)

/-! ### Lemmas: the Python string helpers -/

theorem contains_of_mem {l : Str} {c : Char} (h : c ∈ l) : l.contains c = true :=
  List.elem_iff.mpr h

theorem contains_eq_false_of_not_mem {l : Str} {c : Char} (h : c ∉ l) :
    l.contains c = false := by
  rw [← Bool.not_eq_true]
  intro hc
  exact h (List.elem_iff.mp hc)

theorem splitOnChar_not_mem {sep : Char} : ∀ {l : Str}, sep ∉ l → splitOnChar sep l = [l] := by
  intro l
  induction l with
  | nil => intro _; rfl
  | cons c t ih =>
    intro h
    have hc : ¬(c = sep) := by rintro rfl; exact h (List.mem_cons_self _ _)
    have ht : sep ∉ t := fun hm => h (List.mem_cons_of_mem _ hm)
    simp [splitOnChar, ih ht, hc]

theorem splitOnChar_append {sep : Char} {b : Str} :
    ∀ {a : Str}, sep ∉ a → splitOnChar sep (a ++ sep :: b) = a :: splitOnChar sep b := by
  intro a
  induction a with
  | nil => intro _; simp [splitOnChar]
  | cons c t ih =>
    intro h
    have hc : ¬(c = sep) := by rintro rfl; exact h (List.mem_cons_self _ _)
    have ht : sep ∉ t := fun hm => h (List.mem_cons_of_mem _ hm)
    simp [splitOnChar, ih ht, hc]

theorem pyRsplit1_not_mem {sep : Char} : ∀ {l : Str}, sep ∉ l → pyRsplit1 sep l = [l] := by
  intro l
  induction l with
  | nil => intro _; rfl
  | cons c t ih =>
    intro h
    have hc : ¬(c = sep) := by rintro rfl; exact h (List.mem_cons_self _ _)
    have ht : sep ∉ t := fun hm => h (List.mem_cons_of_mem _ hm)
    simp [pyRsplit1, ih ht, hc]

theorem pyRsplit1_append {sep : Char} {rp : Str} (hrp : sep ∉ rp) :
    ∀ (p : Str), pyRsplit1 sep (p ++ sep :: rp) = [p, rp] := by
  intro p
  induction p with
  | nil => simp [pyRsplit1, pyRsplit1_not_mem hrp]
  | cons c t ih => simp [pyRsplit1, ih]

theorem dropWhile_eq_self_of {p : Char → Bool} {l : Str} (h : ∀ c ∈ l, p c = false) :
    l.dropWhile p = l := by
  cases l with
  | nil => rfl
  | cons c t => rw [List.dropWhile_cons, if_neg]; simp [h c (List.mem_cons_self _ _)]

theorem pyStrip_eq_self_of {l : Str} (h : ∀ c ∈ l, pyWs c = false) : pyStrip l = l := by
  unfold pyStrip
  rw [dropWhile_eq_self_of h, dropWhile_eq_self_of (fun c hc => h c (List.mem_reverse.mp hc)),
    List.reverse_reverse]

theorem pyStrip_ne_nil_of_mem {l : Str} {c : Char} (hc : c ∈ l) (hw : pyWs c = false) :
    (pyStrip l).isEmpty = false := by
  rw [List.isEmpty_eq_false]
  unfold pyStrip
  rw [Ne, List.reverse_eq_nil_iff]
  intro hnil
  have hcd : c ∈ l.dropWhile pyWs := by
    have := List.takeWhile_append_dropWhile pyWs l
    rw [← this] at hc
    rcases List.mem_append.mp hc with h1 | h1
    · exact absurd (List.mem_takeWhile_imp h1) (by simp [hw])
    · exact h1
  have := List.dropWhile_eq_nil_iff.mp hnil c (List.mem_reverse.mpr hcd)
  rw [hw] at this
  exact Bool.false_ne_true this

theorem pyWs_eq_false_of {c : Char} (h : c.isAlphanum = true ∨ c = '-' ∨ c = ':') :
    pyWs c = false := by
  rcases h with h | h | h
  · by_contra hws
    rw [Bool.not_eq_false] at hws
    unfold pyWs at hws
    simp only [Bool.or_eq_true, decide_eq_true_eq] at hws
    rcases hws with ((((hc | hc) | hc) | hc) | hc) | hc <;> subst hc <;>
      exact absurd h (by decide)
  · subst h; decide
  · subst h; decide

theorem isAlphanum_of_isDigit {c : Char} (h : c.isDigit = true) : c.isAlphanum = true := by
  simp [Char.isAlphanum, h]

theorem mem_pyRangeList {a b n : Int} : n ∈ pyRangeList a b ↔ a ≤ n ∧ n ≤ b := by
  unfold pyRangeList
  rw [List.mem_map]
  constructor
  · rintro ⟨k, hk, rfl⟩
    rw [List.mem_range] at hk
    omega
  · rintro ⟨h1, h2⟩
    refine ⟨(n - a).toNat, ?_, ?_⟩
    · rw [List.mem_range]; omega
    · omega

theorem pyRangeList_ne_nil {a b : Int} (hab : a ≤ b) : pyRangeList a b ≠ [] := by
  unfold pyRangeList
  intro h
  rw [List.map_eq_nil_iff, List.range_eq_nil] at h
  omega

theorem evalLookup_exact_iff (v : Str) (r : Option Str) :
    evalLookup (.exact v) r = true ↔ r = some v := by
  cases r <;> simp [evalLookup]

theorem evalQ_leaf (lk : Lookup) (r : Option Str) :
    evalQ (.leaf lk) r = evalLookup lk r := rfl

/-! ### The claims -/

/-- C1, amended.  For a range filter part `a:b` on a numeric range-supported
field (`year`, `specimenNumber`), with `a ≤ b`, the predicate built by
`parse_filter` matches exactly the records whose stored value is the
decimal string of an integer `n` with `a ≤ n ≤ b` (built as the explicit OR
enumeration of the range).  The amendment is the hypothesis `a ≤ b`: for
`a > b` the enumeration is empty and the resulting `Q` object is the empty
`Q()`, which imposes no constraint and therefore matches every record
(see the counterexample). -/
theorem parse_filter_numeric_range_exact (f : String) (sa sb : Str) (a b : Int)
    (r : Option Str)
    (hf : f = "year" ∨ f = "specimenNumber")
    (hia : pyInt sa = some a) (hib : pyInt sb = some b)
    (hca : ':' ∉ sa) (hcb : ':' ∉ sb) (hma : ',' ∉ sa) (hmb : ',' ∉ sb)
    (hstrip : pyStrip (sa ++ ':' :: sb) = sa ++ ':' :: sb)
    (hsta : pyStrip sa = sa) (hstb : pyStrip sb = sb)
    (hab : a ≤ b) :
    (evalQ (parse_filter f (sa ++ ':' :: sb) true) r = true ↔
      ∃ n : Int, a ≤ n ∧ n ≤ b ∧ r = some (intToStr n)) := by
  set value := sa ++ ':' :: sb with hv
  have hvne : value ≠ [] := by simp [hv]
  have h1 : (pyStrip value).isEmpty = false := by
    rw [hstrip]
    exact List.isEmpty_eq_false.mpr hvne
  have h2 : (f == "") = false := by rcases hf with rfl | rfl <;> rfl
  have hcomma : ',' ∉ value := by
    intro hm
    rcases List.mem_append.mp hm with h | h
    · exact hma h
    · rcases List.mem_cons.mp h with h | h
      · exact absurd h (by decide)
      · exact hmb h
  have hparts : (splitOnChar ',' value).map pyStrip = [value] := by
    rw [splitOnChar_not_mem hcomma]
    simp [hstrip]
  have hcv : value.contains ':' = true := contains_of_mem (by simp [hv])
  have hcat : (f == "catalogNumber") = false := by rcases hf with rfl | rfl <;> rfl
  have hyr : (f == "year" || f == "specimenNumber") = true := by
    rcases hf with rfl | rfl <;> rfl
  have hsplitv : splitOnChar ':' value = [sa, sb] := by
    rw [hv, splitOnChar_append hca, splitOnChar_not_mem hcb]
  have hcontrib : partContrib f true value =
      (pyRangeList a b).map (fun v => Q.leaf (.exact (intToStr v))) := by
    unfold partContrib
    rw [if_pos (show (value.contains ':' && true) = true by rw [hcv]; rfl)]
    rw [if_neg (show ¬(value.contains '-' && (f == "catalogNumber")) = true by
      rw [hcat]; simp)]
    rw [hsplitv]
    dsimp only []
    rw [hsta, hstb, hia, hib]
    dsimp only []
    rw [if_pos (show (f == "year" || f == "specimenNumber") = true from hyr)]
  have hne : partContrib f true value ≠ [] := by
    rw [hcontrib]
    simp [pyRangeList_ne_nil hab]
  rw [parse_filter_matches_iff f true value r h1 h2, hparts]
  constructor
  · rintro (h | ⟨p, hp, q, hq, hqr⟩)
    · exact absurd (h value (by simp)) hne
    · rw [List.mem_singleton] at hp
      subst hp
      rw [hcontrib] at hq
      rcases List.mem_map.mp hq with ⟨n, hn, rfl⟩
      rw [mem_pyRangeList] at hn
      rw [evalQ_leaf, evalLookup_exact_iff] at hqr
      exact ⟨n, hn.1, hn.2, hqr⟩
  · rintro ⟨n, hn1, hn2, rfl⟩
    refine Or.inr ⟨value, by simp, Q.leaf (.exact (intToStr n)), ?_, ?_⟩
    · rw [hcontrib]
      exact List.mem_map.mpr ⟨n, mem_pyRangeList.mpr ⟨hn1, hn2⟩, rfl⟩
    · rw [evalQ_leaf]
      exact (evalLookup_exact_iff _ _).mpr rfl

/-- Witness for C1: the filter `1:3` on `specimenNumber` matches the stored
value `2`, an integer of the range. -/
theorem parse_filter_numeric_range_exact_witness :
    evalQ (parse_filter "specimenNumber" (str "1" ++ ':' :: str "3") true)
        (some (str "2")) = true ↔
      ∃ n : Int, 1 ≤ n ∧ n ≤ 3 ∧ some (str "2") = some (intToStr n) :=
  parse_filter_numeric_range_exact "specimenNumber" (str "1") (str "3") 1 3
    (some (str "2")) (Or.inr rfl) (by decide) (by decide) (by decide) (by decide)
    (by decide) (by decide) (by decide) (by decide) (by decide) (by decide)

/-- Counterexample to C1 as frozen: for the part `5:3` (integer bounds
`a = 5`, `b = 3`) the range `[5, 3]` is empty, so by the claim no record
may match; but the built predicate is the empty `Q()`, which matches the
record whose `specimenNumber` is `4`. -/
theorem parse_filter_numeric_range_counterexample :
    evalQ (parse_filter "specimenNumber" (str "5:3") true) (some (str "4")) = true ∧
      ¬∃ n : Int, 5 ≤ n ∧ n ≤ 3 ∧ some (str "4") = some (intToStr n) := by
  constructor
  · decide
  · rintro ⟨n, h1, h2, -⟩
    omega

/-- C2, amended.  For a non-blank field name and filter string, a record
satisfies the combined predicate iff it satisfies the predicate of some
comma-separated part whose own predicate is non-empty, or every part
contributes an empty predicate (an empty numeric range), in which case the
combined predicate is the empty `Q()` and matches every record.  The
amendment covers the second disjunct: as frozen the claim fails when some
part contributes an empty predicate (see the counterexample). -/
theorem parse_filter_union_of_parts (f : String) (rs : Bool) (value : Str) (r : Option Str)
    (h1 : (pyStrip value).isEmpty = false) (h2 : (f == "") = false) :
    (evalQ (parse_filter f value rs) r = true ↔
      ((∃ p ∈ (splitOnChar ',' value).map pyStrip,
          part_filter f rs p ≠ .empty ∧ evalQ (part_filter f rs p) r = true) ∨
        (∀ p ∈ (splitOnChar ',' value).map pyStrip, part_filter f rs p = .empty))) := by
  rw [parse_filter_matches_iff f rs value r h1 h2]
  constructor
  · rintro (h | ⟨p, hp, q, hq, hqr⟩)
    · right
      intro p hp
      rw [part_filter_empty_iff]
      exact h p hp
    · left
      refine ⟨p, hp, ?_, ?_⟩
      · rw [Ne, part_filter_empty_iff]
        intro h0
        rw [h0] at hq
        simp at hq
      · rw [part_filter_eval_iff]
        exact Or.inr ⟨q, hq, hqr⟩
  · rintro (⟨p, hp, hne, hev⟩ | h)
    · rw [part_filter_eval_iff] at hev
      rcases hev with h0 | ⟨q, hq, hqr⟩
      · exact absurd ((part_filter_empty_iff f rs p).mpr h0) hne
      · exact Or.inr ⟨p, hp, q, hq, hqr⟩
    · left
      intro p hp
      rw [← part_filter_empty_iff]
      exact h p hp

/-- Witness for C2: the filter `1:3, 20` on `specimenNumber`, evaluated on
the stored value `20`. -/
theorem parse_filter_union_of_parts_witness :
    evalQ (parse_filter "specimenNumber" (str "1:3, 20") true) (some (str "20")) = true ↔
      ((∃ p ∈ (splitOnChar ',' (str "1:3, 20")).map pyStrip,
          part_filter "specimenNumber" true p ≠ .empty ∧
            evalQ (part_filter "specimenNumber" true p) (some (str "20")) = true) ∨
        (∀ p ∈ (splitOnChar ',' (str "1:3, 20")).map pyStrip,
          part_filter "specimenNumber" true p = .empty)) :=
  parse_filter_union_of_parts "specimenNumber" true (str "1:3, 20") (some (str "20"))
    (by decide) (by decide)

/-- Counterexample to C2 as frozen: in the filter `7, 5:3` on
`specimenNumber`, the part `5:3` is one of the comma-separated parts and
its own predicate (the empty `Q()`) matches the record `9`, yet the
combined predicate does not match `9` — so the combined match set is not
the union of the parts' match sets. -/
theorem parse_filter_union_of_parts_counterexample :
    evalQ (parse_filter "specimenNumber" (str "7, 5:3") true) (some (str "9")) = false ∧
      (str "5:3") ∈ (splitOnChar ',' (str "7, 5:3")).map pyStrip ∧
      evalQ (part_filter "specimenNumber" true (str "5:3")) (some (str "9")) = true := by
  refine ⟨by decide, by decide, by decide⟩

/-- C3, amended.  For a catalog-number range part `p-s:e` (a textual,
regex-metacharacter-free prefix `p` followed by a numeric `s:e` suffix),
the predicate built by `parse_filter` matches exactly the records whose
`catalogNumber` is the prefix `p-` followed by a nonempty digit string `d`
such that the whole value lies lexicographically (string comparison)
between `p-` + `s` and `p-` + `e`, each bound zero-padded to the longer
bound's width.  The amendment replaces the frozen claim's comparison of
the suffix's numeric value with this lexicographic string comparison: the
two agree when `d` has exactly the padded width, but the code compares
the full strings with `__gte`/`__lte`, so a record whose digit suffix is
shorter or longer can disagree with the numeric reading (see the
counterexample). -/
theorem parse_filter_catalog_range_lex (p s e : Str) (r : Option Str)
    (hp : ∀ c ∈ p, c.isAlphanum = true ∨ c = '-')
    (hs : s ≠ []) (he : e ≠ [])
    (hsd : ∀ c ∈ s, c.isDigit = true) (hed : ∀ c ∈ e, c.isDigit = true) :
    (evalQ (parse_filter "catalogNumber" (p ++ '-' :: (s ++ ':' :: e)) true) r = true ↔
      ∃ d : Str, d ≠ [] ∧ (∀ c ∈ d, c.isDigit = true) ∧
        r = some (p ++ '-' :: d) ∧
        strLe (p ++ '-' :: pyZfill s (max s.length e.length)) (p ++ '-' :: d) = true ∧
        strLe (p ++ '-' :: d) (p ++ '-' :: pyZfill e (max s.length e.length)) = true) := by
  set value := p ++ '-' :: (s ++ ':' :: e) with hv
  have hval_chars : ∀ c ∈ value, (c.isAlphanum = true ∨ c = '-' ∨ c = ':') := by
    intro c hcm
    rw [hv] at hcm
    rcases List.mem_append.mp hcm with h | h
    · rcases hp c h with h1 | h1
      · exact Or.inl h1
      · exact Or.inr (Or.inl h1)
    · rcases List.mem_cons.mp h with rfl | h
      · exact Or.inr (Or.inl rfl)
      · rcases List.mem_append.mp h with h | h
        · exact Or.inl (isAlphanum_of_isDigit (hsd c h))
        · rcases List.mem_cons.mp h with rfl | h
          · exact Or.inr (Or.inr rfl)
          · exact Or.inl (isAlphanum_of_isDigit (hed c h))
  have hstrip : pyStrip value = value :=
    pyStrip_eq_self_of (fun c h => pyWs_eq_false_of (hval_chars c h))
  have hvne : value ≠ [] := by simp [hv]
  have h1 : (pyStrip value).isEmpty = false := by
    rw [hstrip]
    exact List.isEmpty_eq_false.mpr hvne
  have h2 : (("catalogNumber" : String) == "") = false := rfl
  have hcomma : ',' ∉ value := by
    intro hm
    rcases hval_chars ',' hm with h | h | h <;> exact absurd h (by decide)
  have hparts : (splitOnChar ',' value).map pyStrip = [value] := by
    rw [splitOnChar_not_mem hcomma]
    simp [hstrip]
  have hcv : value.contains ':' = true := contains_of_mem (by simp [hv])
  have hcd : value.contains '-' = true := contains_of_mem (by simp [hv])
  have hdash_not_rp : '-' ∉ s ++ ':' :: e := by
    intro hm
    rcases List.mem_append.mp hm with h | h
    · exact absurd (hsd _ h) (by decide)
    · rcases List.mem_cons.mp h with h | h
      · exact absurd h (by decide)
      · exact absurd (hed _ h) (by decide)
  have hrsplit : pyRsplit1 '-' value = [p, s ++ ':' :: e] := by
    rw [hv]
    exact pyRsplit1_append hdash_not_rp p
  have hcolon_s : ':' ∉ s := fun hm => absurd (hsd _ hm) (by decide)
  have hcolon_e : ':' ∉ e := fun hm => absurd (hed _ hm) (by decide)
  have hsplit2 : splitOnChar ':' (s ++ ':' :: e) = [s, e] := by
    rw [splitOnChar_append hcolon_s, splitOnChar_not_mem hcolon_e]
  have happ : ∀ d : Str, (p ++ ['-']) ++ d = p ++ '-' :: d := by
    intro d
    simp
  have hcontrib : partContrib "catalogNumber" true value =
      [Q.conj (Q.conj (Q.leaf (.regexPD (p ++ ['-'])))
          (Q.leaf (.gte ((p ++ ['-']) ++ pyZfill s (max s.length e.length)))))
        (Q.leaf (.lte ((p ++ ['-']) ++ pyZfill e (max s.length e.length))))] := by
    unfold partContrib
    rw [if_pos (show (value.contains ':' && true) = true by rw [hcv]; rfl)]
    rw [if_pos (show (value.contains '-' && ("catalogNumber" == "catalogNumber")) = true by
      rw [hcd]; rfl)]
    rw [hrsplit]
    dsimp only []
    rw [hsplit2]
  rw [parse_filter_matches_iff _ true value r h1 h2, hparts]
  constructor
  · rintro (hall | ⟨q0, hq0, qq, hqq, hev⟩)
    · have := hall value (by simp)
      rw [hcontrib] at this
      exact absurd this (by simp)
    · rw [List.mem_singleton] at hq0
      subst hq0
      rw [hcontrib, List.mem_singleton] at hqq
      subst hqq
      cases r with
      | none => simp [evalQ, evalLookup] at hev
      | some v =>
        simp only [evalQ, evalLookup, Bool.and_eq_true] at hev
        obtain ⟨⟨⟨⟨hpref, hne0⟩, hdig⟩, hgte⟩, hlte⟩ := hev
        obtain ⟨d, hd⟩ := List.isPrefixOf_iff_prefix.mp hpref
        have hdrop : v.drop (p ++ ['-']).length = d := by
          rw [← hd]
          exact List.drop_left _ _
        rw [hdrop] at hne0 hdig
        have hv2 : v = p ++ '-' :: d := by rw [← hd, happ]
        subst hv2
        rw [happ] at hgte hlte
        refine ⟨d, ?_, ?_, rfl, hgte, hlte⟩
        · rw [Bool.not_eq_true', List.isEmpty_eq_false] at hne0
          exact hne0
        · exact List.all_eq_true.mp hdig
  · rintro ⟨d, hdne, hddig, rfl, hge, hle⟩
    refine Or.inr ⟨value, by simp, _, by rw [hcontrib]; exact List.mem_singleton.mpr rfl, ?_⟩
    rw [show (p ++ '-' :: d) = (p ++ ['-']) ++ d from (happ d).symm]
    simp only [evalQ, evalLookup, Bool.and_eq_true]
    refine ⟨⟨⟨⟨?_, ?_⟩, ?_⟩, ?_⟩, ?_⟩
    · exact List.isPrefixOf_iff_prefix.mpr ⟨d, rfl⟩
    · rw [List.drop_left]
      simp [List.isEmpty_eq_false.mpr hdne]
    · rw [List.drop_left]
      exact List.all_eq_true.mpr hddig
    · rw [happ, happ]
      exact hge
    · rw [happ, happ]
      exact hle

/-- Witness for C3: the filter `2023-KL-0010:0200` matches the record
`2023-KL-0150`, whose suffix has the padded width. -/
theorem parse_filter_catalog_range_lex_witness :
    evalQ (parse_filter "catalogNumber"
          (str "2023-KL" ++ '-' :: (str "0010" ++ ':' :: str "0200")) true)
        (some (str "2023-KL-0150")) = true ↔
      ∃ d : Str, d ≠ [] ∧ (∀ c ∈ d, c.isDigit = true) ∧
        some (str "2023-KL-0150") = some (str "2023-KL" ++ '-' :: d) ∧
        strLe (str "2023-KL" ++ '-' ::
            pyZfill (str "0010") (max (str "0010").length (str "0200").length))
          (str "2023-KL" ++ '-' :: d) = true ∧
        strLe (str "2023-KL" ++ '-' :: d)
          (str "2023-KL" ++ '-' ::
            pyZfill (str "0200") (max (str "0010").length (str "0200").length)) = true :=
  parse_filter_catalog_range_lex (str "2023-KL") (str "0010") (str "0200")
    (some (str "2023-KL-0150")) (by decide) (by decide) (by decide) (by decide) (by decide)

/-- Counterexample to C3 as frozen: the filter `2023-KL-10:200` (bounds
zero-padded to `010` and `200`) matches the record `2023-KL-02`, whose
digit suffix `02` has numeric value `2`, outside the inclusive bounds
`[10, 200]` — the comparison the code performs is lexicographic on the
whole string, not numeric on the suffix. -/
theorem parse_filter_catalog_range_counterexample :
    evalQ (parse_filter "catalogNumber" (str "2023-KL-10:200") true)
        (some (str "2023-KL-02")) = true ∧
      some (str "2023-KL-02") = some ((str "2023-KL-") ++ str "02") ∧
      pyInt (str "02") = some 2 ∧
      ¬((10 : Int) ≤ 2 ∧ (2 : Int) ≤ 200) := by
  refine ⟨by decide, by decide, by decide, by decide⟩

/-- C4.  A colon-containing part whose range syntax is malformed — the
tuple unpacking of `split(':')` (or, for catalog numbers, of the suffix
split) raises `ValueError` because the split did not yield exactly two
pieces — is handled by the `except` clause: the loop does not raise, and
the part degrades to a case-insensitive substring-contains lookup on the
raw part, for every field name and raw part (the embedding is total, as
the source function is). -/
theorem parse_filter_malformed_fallback (f : String) (p : Str)
    (hc : p.contains ':' = true) (hm : malformedRange f p = true) :
    part_filter f true p = Q.leaf (.icontains p) ∧
      ∀ r, evalQ (part_filter f true p) r = evalLookup (.icontains p) r := by
  have hmain : part_filter f true p = Q.leaf (.icontains p) := by
    unfold part_filter part_filter_step
    unfold malformedRange at hm
    rw [if_pos (show (p.contains ':' && true) = true by rw [hc]; rfl)]
    by_cases h2 : (p.contains '-' && (f == "catalogNumber")) = true
    · rw [if_pos h2]
      rw [if_pos h2] at hm
      rcases hr : pyRsplit1 '-' p with _ | ⟨x, _ | ⟨y, _ | ⟨z, t⟩⟩⟩
      · rfl
      · rfl
      · rw [hr] at hm
        dsimp only [] at hm ⊢
        rw [decide_eq_true_eq] at hm
        rcases hs : splitOnChar ':' y with _ | ⟨u, _ | ⟨v, _ | ⟨w, t2⟩⟩⟩
        · rfl
        · rfl
        · rw [hs] at hm
          simp at hm
        · rfl
      · rfl
    · rw [if_neg h2]
      rw [if_neg h2] at hm
      rw [decide_eq_true_eq] at hm
      rcases hs : splitOnChar ':' p with _ | ⟨u, _ | ⟨v, _ | ⟨w, t2⟩⟩⟩
      · rfl
      · rfl
      · rw [hs] at hm
        simp at hm
      · rfl
  exact ⟨hmain, fun r => by rw [hmain, evalQ_leaf]⟩

/-- Witness for C4: the malformed part `1:2:3` on the `year` field becomes
an `icontains` lookup on the raw part. -/
theorem parse_filter_malformed_fallback_witness :
    part_filter "year" true (str "1:2:3") = Q.leaf (.icontains (str "1:2:3")) ∧
      ∀ r, evalQ (part_filter "year" true (str "1:2:3")) r =
        evalLookup (.icontains (str "1:2:3")) r :=
  parse_filter_malformed_fallback "year" (str "1:2:3") (by decide) (by decide)

/-- C5.  A preview row with no catalog number and at least one missing
component of {specimenNumber, year, locality} is flagged with one error
message naming exactly the missing fields, and those fields (and no
others) are marked; a page render that sees an error sets the session flag
`import_all_errors`; and the confirm POST re-checks that flag server-side:
when it is set the import is refused and no row is created. -/
theorem import_validation_and_confirm_guard (row : ImportRow) (prev : Bool)
    {ρ : Type} (rows : List (RowOutcome ρ)) :
    ((falsy row.catalogNumber = true → (missing_components row).isEmpty = false →
        (validate_catalog_components row).1 =
          ["Missing required field(s): " ++
            String.intercalate ", " (missing_components row) ++
            ". These are needed to generate catalogNumber."] ∧
          (validate_catalog_components row).2 = missing_components row) ∧
      (∀ fld : String, fld ∈ missing_components row ↔
        ((fld = "specimenNumber" ∧ falsy row.specimenNumber = true) ∨
          (fld = "year" ∧ falsy row.year = true) ∨
          (fld = "locality" ∧ falsy row.locality = true))) ∧
      update_all_errors prev true = true ∧
      ((confirm_import true rows).refused = true ∧
        (confirm_import true rows).state.created = [] ∧
        (confirm_import true rows).state.imported = 0)) := by
  refine ⟨?_, ?_, ?_, ?_⟩
  · intro h1 h2
    unfold validate_catalog_components
    rw [if_pos h1, if_neg (by simp [h2])]
    exact ⟨rfl, rfl⟩
  · intro fld
    unfold missing_components
    cases hb1 : falsy row.specimenNumber <;> cases hb2 : falsy row.year <;>
      cases hb3 : falsy row.locality <;> simp
  · simp [update_all_errors]
  · simp [confirm_import]

/-- C6.  In the commit loop, rows are inserted independently: the created
records are exactly the rows whose per-row block succeeded, in order; each
failed row contributes exactly its message to the session error list and
is counted as skipped (twice on the event-date path, which pre-increments
the counter before raising); a failure never prevents a later row's
insertion. -/
theorem import_rows_independent {ρ : Type} (rows : List (RowOutcome ρ)) :
    (import_rows rows).created =
        rows.filterMap (fun o => match o with
          | .created r => some r
          | .failed _ _ => none) ∧
      (import_rows rows).errors =
        rows.filterMap (fun o => match o with
          | .created _ => none
          | .failed m _ => some m) ∧
      (import_rows rows).imported =
        (rows.filterMap (fun o => match o with
          | .created r => some r
          | .failed _ _ => none)).length ∧
      (import_rows rows).skipped =
        (rows.map (fun o => match o with
          | .created _ => 0
          | .failed _ pre => if pre then 2 else 1)).sum := by
  have key : ∀ st : ImportState ρ,
      rows.foldl import_rows_step st =
        { imported := st.imported + (rows.filterMap (fun o => match o with
            | .created r => some r
            | .failed _ _ => none)).length,
          skipped := st.skipped + (rows.map (fun o => match o with
            | .created _ => 0
            | .failed _ pre => if pre then 2 else 1)).sum,
          errors := st.errors ++ rows.filterMap (fun o => match o with
            | .created _ => none
            | .failed m _ => some m),
          created := st.created ++ rows.filterMap (fun o => match o with
            | .created r => some r
            | .failed _ _ => none) } := by
    induction rows with
    | nil => intro st; simp
    | cons o t ih =>
      intro st
      rw [List.foldl_cons, ih]
      cases o with
      | created r =>
        simp [import_rows_step, List.filterMap_cons, List.map_cons, List.sum_cons,
          List.length_cons, ImportState.mk.injEq] <;> omega
      | failed m pre =>
        cases pre <;>
          simp [import_rows_step, List.filterMap_cons, List.map_cons, List.sum_cons,
            List.length_cons, ImportState.mk.injEq] <;> omega
  unfold import_rows
  rw [key]
  simp

/-- C7.  An unauthenticated session with the guest-mode flag set is served
the list and detail views; the same guest session is redirected to login
on create/edit and denied on delete; and for every request context, a
delete, or a create/edit of the reference models `locality`/`initials`,
is only ever served to a superuser or a member of the Admin group. -/
theorem guest_readonly_access_control :
    (dynamic_list_access ⟨false, true, false, false⟩ = .allowed ∧
      guest_allowed ⟨false, true, false, false⟩ = .allowed) ∧
      (∀ m : String, dynamic_create_edit_access ⟨false, true, false, false⟩ m =
        .redirect_login) ∧
      dynamic_delete_access ⟨false, true, false, false⟩ = .access_denied ∧
      (∀ c : Ctx, dynamic_delete_access c = .allowed →
        c.is_superuser = true ∨ c.in_admin_group = true) ∧
      (∀ (c : Ctx) (m : String), (m = "locality" ∨ m = "initials") →
        dynamic_create_edit_access c m = .allowed →
        c.is_superuser = true ∨ c.in_admin_group = true) := by
  refine ⟨⟨rfl, rfl⟩, fun m => rfl, rfl, ?_, ?_⟩
  · intro c h
    rcases c with ⟨auth, guest, su, adm⟩
    cases guest <;> cases su <;> cases adm <;> cases auth <;>
      simp_all [dynamic_delete_access, admin_required, is_guest_mode]
  · intro c m hm h
    rcases c with ⟨auth, guest, su, adm⟩
    cases su <;> cases adm <;> simp_all
    cases auth <;> rcases hm with rfl | rfl <;>
      simp_all [dynamic_create_edit_access, login_required]

/-- C8.  Ordering stored specimen numbers by the numeric-cast sort key
(digit-only strings cast to their value, everything else to 0) arranges a
multiset of decimal digit strings in ascending numeric order — the output
is a permutation of the input that is pairwise ordered by the numeric
value of the strings — not in lexicographic string order. -/
theorem order_by_numeric_ascending (l : List (Option Str))
    (h : ∀ v ∈ l, isDigitString v = true) :
    (order_by_numeric l).Pairwise
        (fun a b => ∀ sa sb : Str, a = some sa → b = some sb →
          digitsVal sa ≤ digitsVal sb) ∧
      (order_by_numeric l).Perm l := by
  have hperm : (order_by_numeric l).Perm l := List.mergeSort_perm l _
  refine ⟨?_, hperm⟩
  have htrans : ∀ a b c : Option Str,
      (decide (numeric_sort_key a ≤ numeric_sort_key b)) = true →
        (decide (numeric_sort_key b ≤ numeric_sort_key c)) = true →
        (decide (numeric_sort_key a ≤ numeric_sort_key c)) = true := by
    intro a b c h1 h2
    rw [decide_eq_true_eq] at h1 h2 ⊢
    omega
  have htotal : ∀ a b : Option Str,
      ((decide (numeric_sort_key a ≤ numeric_sort_key b)) ||
        (decide (numeric_sort_key b ≤ numeric_sort_key a))) = true := by
    intro a b
    rcases Nat.le_total (numeric_sort_key a) (numeric_sort_key b) with h1 | h1 <;> simp [h1]
  have hsorted : (order_by_numeric l).Pairwise
      (fun a b => (decide (numeric_sort_key a ≤ numeric_sort_key b)) = true) :=
    List.sorted_mergeSort htrans htotal l
  refine List.Pairwise.imp_of_mem ?_ hsorted
  intro a b ha hb hab sa sb hsa hsb
  subst hsa
  subst hsb
  have ha' := h _ (hperm.mem_iff.mp ha)
  have hb' := h _ (hperm.mem_iff.mp hb)
  rw [decide_eq_true_eq] at hab
  simp only [isDigitString] at ha' hb'
  have ka : numeric_sort_key (some sa) = digitsVal sa := by
    simp only [numeric_sort_key]
    rw [if_pos ha']
  have kb : numeric_sort_key (some sb) = digitsVal sb := by
    simp only [numeric_sort_key]
    rw [if_pos hb']
  rw [ka, kb] at hab
  exact hab

/-- Witness for C8: the scrambled digit strings `1,10,11,2,20,3` are sorted
into ascending numeric order. -/
theorem order_by_numeric_ascending_witness :
    (order_by_numeric sampleSpecimenNumbers).Pairwise
        (fun a b => ∀ sa sb : Str, a = some sa → b = some sb →
          digitsVal sa ≤ digitsVal sb) ∧
      (order_by_numeric sampleSpecimenNumbers).Perm sampleSpecimenNumbers :=
  order_by_numeric_ascending sampleSpecimenNumbers (by decide)

/-- C9.  The foreign-key branch of `apply_model_filters`: when the exact
primary-key match does not raise, the queryset is filtered by equality on
the stored foreign key; when it raises, the fallback filters by membership
in the related objects whose primary key contains the search term
case-insensitively, and when no related object matches, the result is the
empty queryset. -/
theorem fk_filter_characterization (qs : List FkRec) (relatedPks : List Str) (value : Str) :
    (∀ rcd : FkRec, rcd ∈ fk_filter_step qs relatedPks value false ↔
        rcd ∈ qs ∧ rcd.fk = some value) ∧
      ((∀ pk ∈ relatedPks, containsSub (lowerStr pk) (lowerStr value) = false) →
        fk_filter_step qs relatedPks value true = []) ∧
      (∀ rcd : FkRec, rcd ∈ fk_filter_step qs relatedPks value true ↔
        rcd ∈ qs ∧ ∃ pk ∈ relatedPks,
          containsSub (lowerStr pk) (lowerStr value) = true ∧ rcd.fk = some pk) := by
  refine ⟨?_, ?_, ?_⟩
  · intro rcd
    unfold fk_filter_step
    simp [List.mem_filter]
  · intro h
    unfold fk_filter_step
    have hnil : relatedPks.filter (fun pk => containsSub (lowerStr pk) (lowerStr value)) = [] :=
      List.filter_eq_nil_iff.mpr (by intro a ha; simp [h a ha])
    simp [hnil]
  · intro rcd
    unfold fk_filter_step
    simp only [Bool.not_true, Bool.false_eq_true, if_false]
    by_cases hrel :
        (relatedPks.filter (fun pk => containsSub (lowerStr pk) (lowerStr value))).isEmpty = true
    · rw [if_pos hrel]
      rw [List.isEmpty_iff] at hrel
      simp only [List.not_mem_nil, false_iff]
      rintro ⟨-, pk, hpk, hcond, -⟩
      have : pk ∈ relatedPks.filter (fun pk => containsSub (lowerStr pk) (lowerStr value)) :=
        List.mem_filter.mpr ⟨hpk, hcond⟩
      rw [hrel] at this
      exact List.not_mem_nil pk this
    · rw [if_neg hrel]
      rw [List.mem_filter]
      constructor
      · rintro ⟨hq, hmatch⟩
        refine ⟨hq, ?_⟩
        cases hfk : rcd.fk with
        | none => rw [hfk] at hmatch; exact absurd hmatch (by simp)
        | some k =>
          rw [hfk] at hmatch
          have hk : k ∈ relatedPks.filter
              (fun pk => containsSub (lowerStr pk) (lowerStr value)) :=
            List.elem_iff.mp hmatch
          rcases List.mem_filter.mp hk with ⟨hk1, hk2⟩
          exact ⟨k, hk1, hk2, rfl⟩
      · rintro ⟨hq, pk, hpk, hcond, hfk⟩
        refine ⟨hq, ?_⟩
        rw [hfk]
        exact List.elem_iff.mpr (List.mem_filter.mpr ⟨hpk, hcond⟩)

/-- C10 (implicit claim on `Specimen.save`).  After every save the stored
`catalogNumber` is non-blank: a falsy catalog number is regenerated as
`year-localityCode-specimenNumber` with `XXXX` placeholders for a missing
year or locality code and an `SP`-prefixed zero-padded auto number for a
missing specimen number; a non-falsy but whitespace-only catalog number is
replaced by `AUTO-` plus the first 8 hex digits of a fresh UUID; and in
every case the resulting primary key, stripped of whitespace, is
nonempty. -/
theorem specimen_save_catalog_nonblank (s : SpecimenRow) (dbCount : Nat) (uuidHex : Str) :
    ((∃ v : Str, (specimen_save s dbCount uuidHex).catalogNumber = some v ∧
        (pyStrip v).isEmpty = false) ∧
      (falsy s.catalogNumber = true →
        (specimen_save s dbCount uuidHex).catalogNumber =
          some (pyOr s.year (str "XXXX") ++ str "-" ++
            (match s.localityCode with
              | some code => if code.isEmpty then str "XXXX" else code
              | none => str "XXXX") ++ str "-" ++
            pyOr s.specimenNumber (str "SP" ++ format04d (dbCount + 1)))) ∧
      (∀ v0 : Str, s.catalogNumber = some v0 → v0 ≠ [] →
        (pyStrip v0).isEmpty = true →
        (specimen_save s dbCount uuidHex).catalogNumber =
          some (str "AUTO-" ++ uuidHex.take 8))) := by
  by_cases hcat : falsy s.catalogNumber = true
  · have hdash : '-' ∈ (pyOr s.year (str "XXXX") ++ str "-" ++
        (match s.localityCode with
          | some code => if code.isEmpty then str "XXXX" else code
          | none => str "XXXX") ++ str "-" ++
        pyOr s.specimenNumber (str "SP" ++ format04d (dbCount + 1))) := by
      have hd0 : str "-" = ['-'] := rfl
      simp [hd0, List.mem_append]
    have hstripgen := pyStrip_ne_nil_of_mem hdash (by decide)
    have hgenne := List.isEmpty_eq_false.mpr (List.ne_nil_of_mem hdash)
    have hmain : (specimen_save s dbCount uuidHex).catalogNumber =
        some (pyOr s.year (str "XXXX") ++ str "-" ++
          (match s.localityCode with
            | some code => if code.isEmpty then str "XXXX" else code
            | none => str "XXXX") ++ str "-" ++
          pyOr s.specimenNumber (str "SP" ++ format04d (dbCount + 1))) := by
      simp only [specimen_save, hcat, if_true]
      rw [if_neg]
      simp only [falsy, Option.getD_some]
      rw [hgenne, hstripgen]
      simp
    refine ⟨⟨_, hmain, hstripgen⟩, fun _ => hmain, ?_⟩
    intro v0 h0 hne hstr
    rw [h0] at hcat
    simp only [falsy, List.isEmpty_iff] at hcat
    exact absurd hcat hne
  · rw [Bool.not_eq_true] at hcat
    cases hc : s.catalogNumber with
    | none => rw [hc] at hcat; simp [falsy] at hcat
    | some v0 =>
      rw [hc] at hcat
      simp only [falsy] at hcat
      by_cases hws : (pyStrip v0).isEmpty = true
      · have hmain : (specimen_save s dbCount uuidHex).catalogNumber =
            some (str "AUTO-" ++ uuidHex.take 8) := by
          have hcat' : falsy s.catalogNumber = false := by
            rw [hc]; simp only [falsy]; exact hcat
          simp only [specimen_save, hcat', Bool.false_eq_true, if_false]
          rw [if_pos]
          rw [hc]
          simp only [falsy, Option.getD_some]
          simp [hws]
        have hA : 'A' ∈ str "AUTO-" ++ uuidHex.take 8 := by
          have hd0 : str "AUTO-" = ['A', 'U', 'T', 'O', '-'] := rfl
          simp [hd0, List.mem_append]
        refine ⟨⟨_, hmain, pyStrip_ne_nil_of_mem hA (by decide)⟩, ?_, ?_⟩
        · intro hfal
          simp only [falsy] at hfal
          rw [hcat] at hfal
          exact absurd hfal (by simp)
        · intro v0' h0' hne' hstr'
          exact hmain
      · rw [Bool.not_eq_true] at hws
        have hmain : (specimen_save s dbCount uuidHex).catalogNumber = some v0 := by
          have hcat' : falsy s.catalogNumber = false := by
            rw [hc]; simp only [falsy]; exact hcat
          simp only [specimen_save, hcat', Bool.false_eq_true, if_false]
          rw [if_neg]
          exact hc
          rw [hc]
          simp only [falsy, Option.getD_some]
          simp [hws]
        refine ⟨⟨v0, hmain, hws⟩, ?_, ?_⟩
        · intro hfal
          simp only [falsy] at hfal
          rw [hcat] at hfal
          exact absurd hfal (by simp)
        · intro v0' h0' hne' hstr'
          rw [Option.some_inj] at h0'
          subst h0'
          rw [hws] at hstr'
          exact absurd hstr' (by simp)

end ButterfliesSpec
